import Mathlib

/-!
Verification of the kymatio scattering-transform sources:
`kymatio/scattering1d/frontend/torch_frontend.py`,
`kymatio/scattering1d/frontend/__init__.py`, and
`kymatio/scattering2d/backend/numpy_backend.py`,
shallowly embedded in Lean 4.
-/

/-! ## Python runtime model: exceptions and name resolution -/

/-- The Python exception classes that the embedded code can raise. -/
inductive PyErr where
  | nameError (name : String)
  | valueError (msg : String)
  | runtimeError (msg : String)
  | attributeError (name : String)
  | unboundLocalError (name : String)
  | indexError
  deriving DecidableEq, Repr

/-- The names bound at module scope of
`kymatio/scattering1d/frontend/torch_frontend.py`: its imports
(lines 4-16) and its top-level definitions. -/
def torchFrontendGlobals : List String :=
  ["math", "numbers", "torch", "np",
   "ScatteringTorch", "scattering1d",
   "calibrate_scattering_filters", "scattering_filter_factory",
   "compute_border_indices", "compute_padding",
   "__all__", "Scattering1DTorch", "_apply_psi", "_apply_phi"]

/-- The Python builtins that could be relevant to a bare-name lookup in
this module. -/
def pythonBuiltins : List String :=
  ["len", "isinstance", "int", "float", "min", "max", "type", "str",
   "tuple", "list", "dict", "range", "zip", "enumerate", "format"]

/-- Python resolution of a bare (global-load) name inside a method body
of `torch_frontend.py`: module scope, then builtins.  A name defined only
as a class attribute is not visible to a bare load. -/
def resolvesGlobal (n : String) : Bool :=
  torchFrontendGlobals.contains n || pythonBuiltins.contains n

/-! ## `Scattering1DTorch.__init__` / `build` (torch_frontend.py, lines 163-233) -/

/-- The `shape` argument accepted by the constructor: an integer or a tuple. -/
inductive ShapeArg where
  | int (n : ℕ)
  | tuple (l : List ℕ)
  deriving DecidableEq, Repr

/-- The constructor arguments of `Scattering1DTorch` (line 163). -/
structure S1DArgs where
  J : ℕ
  shape : ShapeArg
  Q : ℕ
  max_order : ℕ := 2
  average : Bool := true
  oversampling : ℕ := 0
  vectorize : Bool := true
  backendName : Option String := none
  deriving DecidableEq, Repr

/-- Embeds the body of `Scattering1DTorch.compute_minimum_support_to_pad`
(lines 552-613): it asks `scattering_filter_factory` for the low-pass
filter's maximal spatial support `t_max_phi` and returns `3 * t_max_phi`.
The factory lives in `kymatio/scattering1d/filter_bank.py`, which is not
under `src/`, so its result is taken as the parameter `t_max_phi`. -/
def compute_minimum_support_to_pad (T J Q t_max_phi : ℕ) : ℕ :=
  3 * t_max_phi

/-- Modelled from the spec: `compute_padding` (from
`kymatio.scattering1d.utils`, not under `src/`) returns left/right pad
sizes such that the signal is centered in the padded buffer of length
`2 ^ J_pad` (spec section 4.3, padding invariant
`pad_left + T + pad_right = 2 ^ J_pad`). -/
def compute_padding (J_pad T : ℕ) : ℕ × ℕ :=
  ((2 ^ J_pad - T) / 2, (2 ^ J_pad - T) - (2 ^ J_pad - T) / 2)

/-- The data `build` computes before creating the filters. -/
structure BuildPlan where
  T : ℕ
  min_to_pad : ℕ
  J_pad : ℕ
  pad_left : ℕ
  pad_right : ℕ
  deriving DecidableEq, Repr

/-- The backend check at lines 192-196 of `build`: a missing backend is
replaced by the torch backend; a provided backend whose `name` does not
start with `"torch"` raises `RuntimeError`. -/
def backendCheck (b : Option String) : Except PyErr Unit :=
  match b with
  | none => .ok ()
  | some nm =>
      if nm.take 5 ≠ "torch" then
        .error (.runtimeError "This backend is not supported.")
      else .ok ()

/-- The shape check at lines 207-215 of `build`.  An integer shape gives
`T` directly; a tuple first indexes element 0 (an empty tuple raises
`IndexError`) and then requires length exactly one. -/
def shapeCheck (s : ShapeArg) : Except PyErr ℕ :=
  match s with
  | .int n => .ok n
  | .tuple [] => .error .indexError
  | .tuple [n] => .ok n
  | .tuple (_ :: _ :: _) =>
      .error (.valueError
        "If shape is specified as a tuple, it must have exactly one element")

/-- Embeds `Scattering1DTorch.build` (lines 180-233) with Python's
name-resolution semantics.  Line 218 invokes
`compute_minimum_support_to_pad` as a bare name; the function is defined
only as a class attribute, so the bare load consults the module globals
and the builtins.  When (and only when) that lookup succeeds would the
padding plan of lines 225-229 be computed, with
`J_pad = min(ceil(log2(T + 2*min_to_pad)), floor(log2(3T - 2)))`. -/
def build (a : S1DArgs) (t_max_phi : ℕ) : Except PyErr BuildPlan :=
  match backendCheck a.backendName with
  | .error e => .error e
  | .ok _ =>
    match shapeCheck a.shape with
    | .error e => .error e
    | .ok T =>
      if resolvesGlobal "compute_minimum_support_to_pad" then
        let m := compute_minimum_support_to_pad T a.J a.Q t_max_phi
        let J_pad := min (Nat.clog 2 (T + 2 * m)) (Nat.log2 (3 * T - 2))
        let pads := compute_padding J_pad T
        .ok ⟨T, m, J_pad, pads.1, pads.2⟩
      else
        .error (.nameError "compute_minimum_support_to_pad")

/-- `Scattering1DTorch.__init__` (lines 163-178): stores the parameters
and calls `build`; it completes only if `build` does. -/
def scattering1DTorchInit (a : S1DArgs) (t_max_phi : ℕ) :
    Except PyErr BuildPlan :=
  build a t_max_phi

/-- The computation `build` evidently intends at lines 217-229: the same
steps with the name `compute_minimum_support_to_pad` bound to the class's
own function (lines 552-613). -/
def buildIntended (a : S1DArgs) (t_max_phi : ℕ) : Except PyErr BuildPlan :=
  match backendCheck a.backendName with
  | .error e => .error e
  | .ok _ =>
    match shapeCheck a.shape with
    | .error e => .error e
    | .ok T =>
      let m := compute_minimum_support_to_pad T a.J a.Q t_max_phi
      let J_pad := min (Nat.clog 2 (T + 2 * m)) (Nat.log2 (3 * T - 2))
      let pads := compute_padding J_pad T
      .ok ⟨T, m, J_pad, pads.1, pads.2⟩

/-- A constructor argument list is valid when the backend argument passes
the backend check and the shape is an integer or a 1-tuple. -/
def validArgs (a : S1DArgs) : Prop :=
  (backendCheck a.backendName = .ok ()) ∧ (∃ T, shapeCheck a.shape = .ok T)

/-! ## `Scattering1DTorch.forward` (torch_frontend.py, lines 312-401) -/

/-- A Python dictionary key of a filter dictionary: the filter
dictionaries mix string metadata keys and integer resolution keys. -/
inductive PyKey where
  | str (s : String)
  | num (n : ℤ)
  deriving DecidableEq, Repr

/-- Whether a key is a non-string (resolution) key. -/
def PyKey.nonStr : PyKey → Bool
  | .str _ => false
  | .num _ => true

/-- The instance attributes a fully initialized `Scattering1DTorch`
object would carry: those set in `__init__` (lines 167-175), `build`
(lines 194-232) and `create_and_register_filters` (lines 273-275).
No attribute named `psi_f` is ever defined. -/
def scatteringInstanceAttrs : List String :=
  ["J", "shape", "Q", "max_order", "average", "oversampling", "vectorize",
   "backend", "r_psi", "sigma0", "alpha", "P_max", "eps",
   "criterion_amplitude", "normalize", "T", "J_pad", "pad_left",
   "pad_right", "ind_start", "ind_end", "psi1_f", "psi2_f", "phi_f"]

/-- The state of a (hypothetically) constructed transform object, as far
as `forward` consults it: the configuration flags and the key lists of
the filter dictionaries. -/
structure TransformState where
  vectorize : Bool
  average : Bool
  max_order : ℕ
  phiKeys : List PyKey
  psi1Keys : List (List PyKey)
  psi2Keys : List (List PyKey)
  deriving DecidableEq, Repr

/-- Outcome of `forward` when it does not raise: the call to the
`scattering1d` cascade at line 385. -/
inductive ForwardOutcome where
  | cascadeCalled
  deriving DecidableEq, Repr

/-- Embeds `Scattering1DTorch.forward` (lines 312-401) up to the cascade
call: the input-axis check (line 343), the vectorize/average
compatibility check (lines 355-359), the buffer-restoration loops
(lines 366-383) -- in which the `psi1_f` loop assigns to `self.psi_f`
(line 376), an attribute lookup against the instance attributes -- and
finally the call `scattering1d(x, pad, unpad, ...)` (line 385), whose
arguments `pad` and `unpad` are bare names resolved against the module
globals. -/
def forward (st : TransformState) (xAxes : ℕ) :
    Except PyErr ForwardOutcome :=
  if xAxes < 1 then
    .error (.valueError "Input tensor x should have at least one axis")
  else if st.vectorize && !st.average then
    .error (.valueError
      "Options average=False and vectorize=True are mutually incompatible. Please set vectorize to False.")
  -- phi_f loop (lines 367-371): `self.phi_f` exists, assignments succeed.
  -- psi1_f loop (lines 372-377): on the first non-string key it reads
  -- `self.psi_f`, which is not among the instance attributes.
  else if st.psi1Keys.any (fun ks => ks.any PyKey.nonStr)
      && !(scatteringInstanceAttrs.contains "psi_f") then
    .error (.attributeError "psi_f")
  -- psi2_f loop (lines 378-383) assigns into the loop-local `psi_f`.
  -- line 385: `scattering1d(x, pad, unpad, ...)` loads the bare names
  -- `pad` and `unpad`.
  else if resolvesGlobal "pad" then .ok .cascadeCalled
  else .error (.nameError "pad")

/-! ## `Scattering1D.__init__` dispatcher (frontend/__init__.py, lines 5-38) -/

/-- Whether an exception belongs to the configuration-error class of this
codebase (invalid parameters are signalled as `ValueError`). -/
def isConfigurationError : PyErr → Bool
  | .valueError _ => true
  | _ => false

/-- The bare `except:` wrapping of each frontend branch: any exception
from the frontend constructor is replaced by a `RuntimeError` blaming the
installation. -/
def maskWith (msg : String) : Except PyErr Unit → Except PyErr Unit
  | .ok u => .ok u
  | .error _ => .error (.runtimeError msg)

/-- Embeds `Scattering1D.__init__` (frontend/__init__.py, lines 5-38).
The `numpy` and `tensorflow` frontend constructors live in modules not
under `src/`; their outcomes are the parameters `numpyCtor` and
`tfCtor`.  The `torch` branch swaps the class and re-runs `__init__`,
i.e. runs `scattering1DTorchInit`. -/
def scattering1DInit (frontend : String) (numpyCtor tfCtor : Except PyErr Unit)
    (a : S1DArgs) (t_max_phi : ℕ) : Except PyErr Unit :=
  if frontend = "numpy" then
    maskWith "Make sure NumPy is correctly installed." numpyCtor
  else if frontend = "torch" then
    maskWith "Make sure PyTorch is correctly installed."
      ((scattering1DTorchInit a t_max_phi).map fun _ => ())
  else if frontend = "tensorflow" then
    maskWith "Make sure TensorFlow is correctly installed." tfCtor
  else
    .error (.runtimeError "This frontend is not available.")

/-! ## `compute_meta_scattering` / `precompute_size_scattering`
(torch_frontend.py, lines 403-550)

Both static methods start from the output of
`calibrate_scattering_filters(J, Q)` (in `kymatio/scattering1d/filter_bank.py`,
not under `src/`): parallel sequences `xi1s, sigma1s, j1s` of first-order
filter parameters and `xi2s, sigma2s, j2s` of second-order ones.  The
embedding quantifies over these calibrated sequences. -/

/-- A calibrated filter descriptor `(xi, sigma, j)` as iterated by
`zip(xi1s, sigma1s, j1s)`. -/
abbrev Filt := ℚ × ℚ × ℕ

/-- Python's `zip` of the three parallel parameter sequences. -/
def zip3 (xs ss : List ℚ) (js : List ℕ) : List Filt :=
  xs.zip (ss.zip js)

/-- Default filter descriptor (only used for out-of-range `getD`). -/
def dFilt : Filt := (0, 0, 0)

/-- The order-2 key list built by the nested loops of
`compute_meta_scattering` (lines 465-483): for each
`(n1, (xi1, sigma1, j1))` in `enumerate(zip(...))` and each
`(n2, (xi2, sigma2, j2))`, the pair `(n1, n2)` is appended iff
`j2 > j1`. -/
def metaKey2 (xi1s sigma1s : List ℚ) (j1s : List ℕ)
    (xi2s sigma2s : List ℚ) (j2s : List ℕ) : List (ℕ × ℕ) :=
  (zip3 xi1s sigma1s j1s).enum.flatMap fun p =>
    ((zip3 xi2s sigma2s j2s).enum.filter fun q => p.2.2.2 < q.2.2.2).map
      fun q => (p.1, q.1)

/-- The `'order'` and `'key'` lists of `compute_meta_scattering`
(lines 446-486) after the concatenation `value[0] + value[1] + value[2]`:
one order-0 entry, one order-1 entry per first-order filter, and (when
`max_order ≥ 2`) one order-2 entry per pair with `j2 > j1`. -/
def compute_meta_scattering (xi1s sigma1s : List ℚ) (j1s : List ℕ)
    (xi2s sigma2s : List ℚ) (j2s : List ℕ) (max_order : ℕ) :
    List ℕ × List (List ℕ) :=
  let key1 := (zip3 xi1s sigma1s j1s).enum.map fun p => [p.1]
  let key2 : List (List ℕ) :=
    if max_order < 2 then []
    else (metaKey2 xi1s sigma1s j1s xi2s sigma2s j2s).map fun p => [p.1, p.2]
  ([0] ++ key1.map (fun _ => 1) ++ key2.map (fun _ => 2),
   [[]] ++ key1 ++ key2)

/-- The nested counting loop of `precompute_size_scattering`
(lines 536-540): `size_order2` counts the pairs
`(n1, n2) ∈ range(len(xi1)) × range(len(xi2))` with `j2[n2] > j1[n1]`. -/
def size_order2 (xi1 : List ℚ) (j1 : List ℕ) (xi2 : List ℚ)
    (j2 : List ℕ) : ℕ :=
  ((List.range xi1.length).map fun n1 =>
    ((List.range xi2.length).filter fun n2 =>
      j1.getD n1 0 < j2.getD n2 0).length).sum

/-- The return value of `precompute_size_scattering`: a per-order tuple
when `detail` is set, an aggregate count otherwise. -/
inductive SizeResult where
  | det (sizes : List ℕ)
  | agg (n : ℕ)
  deriving DecidableEq, Repr

/-- Embeds `precompute_size_scattering` (lines 501-550). -/
def precompute_size_scattering (xi1 : List ℚ) (j1 : List ℕ)
    (xi2 : List ℚ) (j2 : List ℕ) (max_order : ℕ) (detail : Bool) :
    SizeResult :=
  let size_order0 := 1
  let size_order1 := xi1.length
  let s2 := size_order2 xi1 j1 xi2 j2
  if detail then
    if max_order = 2 then .det [size_order0, size_order1, s2]
    else .det [size_order0, size_order1]
  else
    if max_order = 2 then .agg (size_order0 + size_order1 + s2)
    else .agg (size_order0 + size_order1)

/-- Canonical form of the order-2 key list: enumeration by plain index
ranges over the `j` sequences. -/
def canonKey2 (L1 L2 : ℕ) (j1 j2 : List ℕ) : List (ℕ × ℕ) :=
  (List.range L1).flatMap fun n1 =>
    ((List.range L2).filter fun n2 => j1.getD n1 0 < j2.getD n2 0).map
      fun n2 => (n1, n2)

theorem flatMap_congr {α β : Type} {l : List α} {f g : α → List β}
    (h : ∀ a ∈ l, f a = g a) : l.flatMap f = l.flatMap g := by
  induction l with
  | nil => rfl
  | cons a l ih =>
      simp only [List.flatMap_cons]
      rw [h a (by simp), ih fun a ha => h a (by simp [ha])]

theorem enum_eq_range_map {α : Type} (d : α) (l : List α) :
    l.enum = (List.range l.length).map fun i => (i, l.getD i d) := by
  apply List.ext_getElem
  · simp
  · intro i h1 h2
    have hi : i < l.length := by simpa using h1
    simp [List.getD_eq_getElem _ _ hi, List.getElem?_eq_getElem hi]

theorem zip3_length (xs ss : List ℚ) (js : List ℕ)
    (hx : xs.length = js.length) (hs : ss.length = js.length) :
    (zip3 xs ss js).length = js.length := by
  simp [zip3, hx, hs]

theorem zip3_getD_j (xs ss : List ℚ) (js : List ℕ) (i : ℕ)
    (hx : xs.length = js.length) (hs : ss.length = js.length)
    (hi : i < js.length) :
    ((zip3 xs ss js).getD i dFilt).2.2 = js.getD i 0 := by
  have hz : i < (zip3 xs ss js).length := by
    rw [zip3_length xs ss js hx hs]; exact hi
  have hzs : i < (ss.zip js).length := by simp [hs, hi]
  rw [List.getD_eq_getElem _ _ hz, List.getD_eq_getElem _ _ hi]
  simp [zip3]

theorem metaKey2_eq_canon (xi1s sigma1s : List ℚ) (j1s : List ℕ)
    (xi2s sigma2s : List ℚ) (j2s : List ℕ)
    (hx1 : xi1s.length = j1s.length) (hs1 : sigma1s.length = j1s.length)
    (hx2 : xi2s.length = j2s.length) (hs2 : sigma2s.length = j2s.length) :
    metaKey2 xi1s sigma1s j1s xi2s sigma2s j2s =
      canonKey2 j1s.length j2s.length j1s j2s := by
  unfold metaKey2 canonKey2
  rw [enum_eq_range_map dFilt (zip3 xi1s sigma1s j1s),
    enum_eq_range_map dFilt (zip3 xi2s sigma2s j2s),
    zip3_length xi1s sigma1s j1s hx1 hs1,
    zip3_length xi2s sigma2s j2s hx2 hs2,
    List.flatMap_map]
  apply flatMap_congr
  intro n1 hn1
  have hn1' : n1 < j1s.length := List.mem_range.mp hn1
  rw [List.filter_map, List.map_map]
  have hpred : ∀ n2 ∈ List.range j2s.length,
      (((zip3 xi1s sigma1s j1s).getD n1 dFilt).2.2 <
          ((zip3 xi2s sigma2s j2s).getD n2 dFilt).2.2) =
        (j1s.getD n1 0 < j2s.getD n2 0) := by
    intro n2 hn2
    rw [zip3_getD_j xi1s sigma1s j1s n1 hx1 hs1 hn1',
      zip3_getD_j xi2s sigma2s j2s n2 hx2 hs2 (List.mem_range.mp hn2)]
  rw [List.filter_congr (by
    intro n2 hn2
    simp only [Function.comp]
    rw [show (decide (((zip3 xi1s sigma1s j1s).getD n1 dFilt).2.2 <
        ((zip3 xi2s sigma2s j2s).getD n2 dFilt).2.2)) =
        decide (j1s.getD n1 0 < j2s.getD n2 0) by
      rw [decide_eq_decide]
      rw [zip3_getD_j xi1s sigma1s j1s n1 hx1 hs1 hn1',
        zip3_getD_j xi2s sigma2s j2s n2 hx2 hs2 (List.mem_range.mp hn2)]])]
  rfl

theorem canonKey2_mem (L1 L2 : ℕ) (j1 j2 : List ℕ) (a b : ℕ) :
    (a, b) ∈ canonKey2 L1 L2 j1 j2 ↔
      a < L1 ∧ b < L2 ∧ j1.getD a 0 < j2.getD b 0 := by
  simp only [canonKey2, List.mem_flatMap, List.mem_map, List.mem_filter,
    List.mem_range, Prod.mk.injEq]
  constructor
  · rintro ⟨n1, hn1, n2, ⟨⟨hn2, hlt⟩, rfl, rfl⟩⟩
    exact ⟨hn1, hn2, by simpa using hlt⟩
  · rintro ⟨ha, hb, hlt⟩
    exact ⟨a, ha, b, ⟨⟨hb, by simpa using hlt⟩, rfl, rfl⟩⟩

theorem canonKey2_nodup (L1 L2 : ℕ) (j1 j2 : List ℕ) :
    (canonKey2 L1 L2 j1 j2).Nodup := by
  rw [canonKey2, List.nodup_flatMap]
  constructor
  · intro n1 _
    exact (((List.nodup_range L2).filter _).map
      (fun b1 b2 h => by simpa using h))
  · have h := List.pairwise_lt_range (n := L1)
    apply h.imp
    intro a b hab
    intro x hx hy
    rcases List.mem_map.mp hx with ⟨n2, -, h1⟩
    rcases List.mem_map.mp hy with ⟨n2', -, h2⟩
    rw [← h1] at h2
    have hba : b = a := congrArg Prod.fst h2
    omega

theorem canonKey2_length (L1 L2 : ℕ) (j1 j2 : List ℕ) :
    (canonKey2 L1 L2 j1 j2).length =
      ((List.range L1).map fun n1 =>
        ((List.range L2).filter fun n2 =>
          j1.getD n1 0 < j2.getD n2 0).length).sum := by
  simp only [canonKey2, List.length_flatMap]
  congr 1
  apply List.map_congr_left
  intro n1 _
  simp [Function.comp]

/-! ## Theorems for claims C2, C3, C9, C6, C7 -/

/-- C2. For every valid constructor argument list, constructing a
`Scattering1DTorch` object never completes: `build` invokes
`compute_minimum_support_to_pad` as a bare name, which resolves against
the module globals and builtins and fails, so the constructor raises a
`NameError` before any padding plan or filter bank is computed. -/
theorem c2_init_never_completes (a : S1DArgs) (t_max_phi : ℕ)
    (h : validArgs a) :
    scattering1DTorchInit a t_max_phi =
      .error (.nameError "compute_minimum_support_to_pad") := by
  obtain ⟨hb, T, hs⟩ := h
  unfold scattering1DTorchInit build
  rw [hb, hs]
  rfl

/-- Witness for C2 at the concrete arguments `J = 6`, `shape = 8192`,
`Q = 8`. -/
theorem c2_init_never_completes_witness :
    validArgs ⟨6, .int 8192, 8, 2, true, 0, true, none⟩ ∧
      scattering1DTorchInit ⟨6, .int 8192, 8, 2, true, 0, true, none⟩ 11 =
        .error (.nameError "compute_minimum_support_to_pad") :=
  ⟨⟨rfl, 8192, rfl⟩,
    c2_init_never_completes ⟨6, .int 8192, 8, 2, true, 0, true, none⟩ 11
      ⟨rfl, 8192, rfl⟩⟩

/-- C3. For every input with at least one axis, if the transform is
configured with `vectorize = true` and `average = false`, `forward`
raises a `ValueError` at its configuration check -- before the buffer
restoration and before the `scattering1d` cascade call -- and never
silently coerces the configuration. -/
theorem c3_vectorize_requires_average (st : TransformState) (xAxes : ℕ)
    (hx : 1 ≤ xAxes) (hv : st.vectorize = true) (ha : st.average = false) :
    forward st xAxes =
      .error (.valueError
        "Options average=False and vectorize=True are mutually incompatible. Please set vectorize to False.") := by
  rw [forward, if_neg (by omega), if_pos (by rw [hv, ha]; rfl)]

/-- Witness for C3 at a concrete state and a one-axis input. -/
theorem c3_vectorize_requires_average_witness :
    1 ≤ 2 ∧ (TransformState.vectorize ⟨true, false, 2, [], [], []⟩ = true) ∧
      forward ⟨true, false, 2, [], [], []⟩ 2 =
        .error (.valueError
          "Options average=False and vectorize=True are mutually incompatible. Please set vectorize to False.") :=
  ⟨by decide, rfl,
    c3_vectorize_requires_average ⟨true, false, 2, [], [], []⟩ 2
      (by decide) rfl rfl⟩

/-- C9. For every constructed transform whose `psi1_f` collection
contains at least one filter keyed by a non-string resolution key, a
`forward` call that passes the input-axis and vectorize/average checks
raises an `AttributeError` in its buffer-restoration loop (it assigns to
`self.psi_f`, an attribute that is never defined), hence it never
reaches the `scattering1d` cascade call. -/
theorem c9_forward_attribute_error (st : TransformState) (xAxes : ℕ)
    (hx : 1 ≤ xAxes)
    (hcfg : ¬(st.vectorize = true ∧ st.average = false))
    (hk : st.psi1Keys.any (fun ks => ks.any PyKey.nonStr) = true) :
    forward st xAxes = .error (.attributeError "psi_f") := by
  have hva : (st.vectorize && !st.average) = false := by
    cases h1 : st.vectorize <;> cases h2 : st.average <;> simp_all
  have hattr : scatteringInstanceAttrs.contains "psi_f" = false := rfl
  rw [forward, if_neg (by omega), if_neg (by rw [hva]; exact Bool.false_ne_true),
    if_pos (by rw [hk, hattr]; rfl)]

/-- Witness for C9 at a concrete state whose first first-order filter
has the integer resolution key `0`. -/
theorem c9_forward_attribute_error_witness :
    1 ≤ 1 ∧
      ¬((true : Bool) = true ∧ (true : Bool) = false) ∧
      (TransformState.psi1Keys
          ⟨true, true, 2, [PyKey.num 0], [[PyKey.str "xi", PyKey.num 0]], []⟩).any
        (fun ks => ks.any PyKey.nonStr) = true ∧
      forward ⟨true, true, 2, [PyKey.num 0], [[PyKey.str "xi", PyKey.num 0]], []⟩ 1 =
        .error (.attributeError "psi_f") :=
  ⟨by decide, by decide, by decide,
    c9_forward_attribute_error
      ⟨true, true, 2, [PyKey.num 0], [[PyKey.str "xi", PyKey.num 0]], []⟩ 1
      (by decide) (by decide) (by decide)⟩

/-- Helper: because of the bare-name bug, `build` never returns a plan. -/
theorem buildNotOk (a : S1DArgs) (t : ℕ) (p : BuildPlan) :
    build a t ≠ Except.ok p := by
  intro h
  unfold build at h
  split at h
  · exact Except.noConfusion h
  · split at h
    · exact Except.noConfusion h
    · rw [show resolvesGlobal "compute_minimum_support_to_pad" = false from
        rfl] at h
      simp at h

/-- C6, counterexample. At the concrete invalid configuration
`Q = 0` (with `frontend = "torch"`), the public `Scattering1D`
constructor does not surface a configuration error: the bare `except:`
of the dispatcher replaces the underlying error with
`RuntimeError("Make sure PyTorch is correctly installed.")`, which is
not of the configuration-error class. -/
theorem c6_counterexample :
    scattering1DInit "torch" (.ok ()) (.ok ())
        ⟨6, .int 8192, 0, 2, true, 0, true, none⟩ 11 =
      .error (.runtimeError "Make sure PyTorch is correctly installed.") ∧
    isConfigurationError
        (.runtimeError "Make sure PyTorch is correctly installed.") = false := by
  constructor
  · rfl
  · rfl

/-- C6, amended. For every argument list passed to the public
`Scattering1D` constructor with the torch frontend (invalid
configurations such as `Q = 0` included), an error is raised immediately
-- no partial filter bank is ever returned -- but it is always the
dispatcher's masking `RuntimeError("Make sure PyTorch is correctly
installed.")`, which replaces whatever error the frontend constructor
raised. -/
theorem c6_amended_dispatcher_masks (numpyCtor tfCtor : Except PyErr Unit)
    (a : S1DArgs) (t_max_phi : ℕ) :
    scattering1DInit "torch" numpyCtor tfCtor a t_max_phi =
      .error (.runtimeError "Make sure PyTorch is correctly installed.") := by
  cases h : scattering1DTorchInit a t_max_phi with
  | error e => simp [scattering1DInit, maskWith, h, Except.map]
  | ok p => exact absurd h (buildNotOk a t_max_phi p)

/-- C7. At the failing input `T = 8192`, `J = 6`, `Q = 8` (any
`t_max_phi` returned by the filter factory), `build` as written raises
`NameError` instead of computing the padding plan, while the computation
it evidently intends yields exactly `min_to_pad = 3 * t_max_phi` and
`J_pad = min(ceil(log2(T + 2*min_to_pad)), floor(log2(3T - 2)))`. -/
theorem c7_build_pad_formula (t_max_phi : ℕ) :
    build ⟨6, .int 8192, 8, 2, true, 0, true, none⟩ t_max_phi =
        .error (.nameError "compute_minimum_support_to_pad") ∧
      (buildIntended ⟨6, .int 8192, 8, 2, true, 0, true, none⟩ t_max_phi).map
          (fun p => (p.min_to_pad, p.J_pad)) =
        .ok (3 * t_max_phi,
          min (Nat.clog 2 (8192 + 2 * (3 * t_max_phi)))
            (Nat.log2 (3 * 8192 - 2))) := by
  constructor
  · rfl
  · rfl

/-- Helper: in a duplicate-free list, a member occurs exactly once
(stated for the ambient `BEq` instance of the element type). -/
theorem count_eq_one_of_nodup_of_mem {α : Type} [BEq α] [LawfulBEq α]
    {l : List α} {a : α} (hn : l.Nodup) (ha : a ∈ l) : l.count a = 1 := by
  induction l with
  | nil => cases ha
  | cons b t ih =>
      rw [List.count_cons]
      rcases List.mem_cons.mp ha with rfl | hmem
      · have hnotmem : a ∉ t := (List.nodup_cons.mp hn).1
        rw [List.count_eq_zero.mpr hnotmem]
        simp
      · have hc := ih (List.nodup_cons.mp hn).2 hmem
        have hne : a ≠ b := by
          intro h
          exact (List.nodup_cons.mp hn).1 (h ▸ hmem)
        have hne' : ¬b = a := fun h => hne (Eq.symm h)
        simp [hc, hne']

/-- Helper shared by C1 and C4: the nested counting loop of
`precompute_size_scattering` counts exactly the order-2 keys that
`compute_meta_scattering` emits. -/
theorem size_order2_eq_metaKey2_length (xi1s sigma1s : List ℚ)
    (j1s : List ℕ) (xi2s sigma2s : List ℚ) (j2s : List ℕ)
    (hx1 : xi1s.length = j1s.length) (hs1 : sigma1s.length = j1s.length)
    (hx2 : xi2s.length = j2s.length) (hs2 : sigma2s.length = j2s.length) :
    size_order2 xi1s j1s xi2s j2s =
      (metaKey2 xi1s sigma1s j1s xi2s sigma2s j2s).length := by
  rw [metaKey2_eq_canon _ _ _ _ _ _ hx1 hs1 hx2 hs2, canonKey2_length]
  unfold size_order2
  rw [hx1, hx2]

/-- C1. For all calibrated filter sequences (parallel per-order
lists of center frequencies, bandwidths and scales), every order-2 path
`(n1, n2)` produced by `compute_meta_scattering` satisfies `j2 > j1`
strictly; every pair of a first-order filter `n1` and a second-order
filter `n2` with `j2 > j1` is included exactly once (no valid pair is
skipped); and `precompute_size_scattering`'s order-2 loop counts exactly
these paths. -/
theorem c1_order2_paths (xi1s sigma1s : List ℚ) (j1s : List ℕ)
    (xi2s sigma2s : List ℚ) (j2s : List ℕ)
    (hx1 : xi1s.length = j1s.length) (hs1 : sigma1s.length = j1s.length)
    (hx2 : xi2s.length = j2s.length) (hs2 : sigma2s.length = j2s.length) :
    (∀ n1 n2, (n1, n2) ∈ metaKey2 xi1s sigma1s j1s xi2s sigma2s j2s →
        j1s.getD n1 0 < j2s.getD n2 0) ∧
    (∀ n1 n2, n1 < j1s.length → n2 < j2s.length →
        j1s.getD n1 0 < j2s.getD n2 0 →
        (metaKey2 xi1s sigma1s j1s xi2s sigma2s j2s).count (n1, n2) = 1) ∧
    size_order2 xi1s j1s xi2s j2s =
      (metaKey2 xi1s sigma1s j1s xi2s sigma2s j2s).length := by
  refine ⟨?_, ?_, size_order2_eq_metaKey2_length _ _ _ _ _ _ hx1 hs1 hx2 hs2⟩
  · intro n1 n2 h
    rw [metaKey2_eq_canon _ _ _ _ _ _ hx1 hs1 hx2 hs2] at h
    exact ((canonKey2_mem _ _ _ _ _ _).mp h).2.2
  · intro n1 n2 h1 h2 hlt
    rw [metaKey2_eq_canon _ _ _ _ _ _ hx1 hs1 hx2 hs2]
    exact count_eq_one_of_nodup_of_mem (canonKey2_nodup _ _ _ _)
      ((canonKey2_mem _ _ _ _ _ _).mpr ⟨h1, h2, hlt⟩)

/-- Witness for C1 at the concrete calibrated sequences
`j1s = [2, 1, 0]`, `j2s = [2, 1, 0]`. -/
theorem c1_order2_paths_witness :
    (([(1:ℚ)/2, 1/4, 1/8].length = [2, 1, 0].length ∧
      [(1:ℚ)/10, 1/10, 1/10].length = [2, 1, 0].length ∧
      [(1:ℚ)/2, 1/4, 1/8].length = [2, 1, 0].length ∧
      [(1:ℚ)/10, 1/10, 1/10].length = [2, 1, 0].length)) ∧
    ((∀ n1 n2,
        (n1, n2) ∈ metaKey2 [(1:ℚ)/2, 1/4, 1/8] [(1:ℚ)/10, 1/10, 1/10]
            [2, 1, 0] [(1:ℚ)/2, 1/4, 1/8] [(1:ℚ)/10, 1/10, 1/10] [2, 1, 0] →
        ([2, 1, 0] : List ℕ).getD n1 0 < ([2, 1, 0] : List ℕ).getD n2 0) ∧
      (∀ n1 n2, n1 < ([2, 1, 0] : List ℕ).length →
          n2 < ([2, 1, 0] : List ℕ).length →
          ([2, 1, 0] : List ℕ).getD n1 0 < ([2, 1, 0] : List ℕ).getD n2 0 →
          (metaKey2 [(1:ℚ)/2, 1/4, 1/8] [(1:ℚ)/10, 1/10, 1/10] [2, 1, 0]
              [(1:ℚ)/2, 1/4, 1/8] [(1:ℚ)/10, 1/10, 1/10]
              [2, 1, 0]).count (n1, n2) = 1) ∧
      size_order2 [(1:ℚ)/2, 1/4, 1/8] [2, 1, 0] [(1:ℚ)/2, 1/4, 1/8]
          [2, 1, 0] =
        (metaKey2 [(1:ℚ)/2, 1/4, 1/8] [(1:ℚ)/10, 1/10, 1/10] [2, 1, 0]
            [(1:ℚ)/2, 1/4, 1/8] [(1:ℚ)/10, 1/10, 1/10] [2, 1, 0]).length) :=
  ⟨⟨rfl, rfl, rfl, rfl⟩,
    c1_order2_paths [(1:ℚ)/2, 1/4, 1/8] [(1:ℚ)/10, 1/10, 1/10] [2, 1, 0]
      [(1:ℚ)/2, 1/4, 1/8] [(1:ℚ)/10, 1/10, 1/10] [2, 1, 0]
      rfl rfl rfl rfl⟩

/-- C4. For all calibrated filter sequences and `max_order ∈ {1, 2}`,
the per-order counts returned by `precompute_size_scattering` with
`detail = true` sum to the aggregate count returned with
`detail = false`, and that aggregate equals the number of paths
enumerated by `compute_meta_scattering` (the length of its concatenated
`'order'` and `'key'` lists). -/
theorem c4_size_consistency (xi1s sigma1s : List ℚ) (j1s : List ℕ)
    (xi2s sigma2s : List ℚ) (j2s : List ℕ) (max_order : ℕ)
    (hx1 : xi1s.length = j1s.length) (hs1 : sigma1s.length = j1s.length)
    (hx2 : xi2s.length = j2s.length) (hs2 : sigma2s.length = j2s.length)
    (hmo : max_order = 1 ∨ max_order = 2) :
    ∃ sizes n,
      precompute_size_scattering xi1s j1s xi2s j2s max_order true =
          .det sizes ∧
      precompute_size_scattering xi1s j1s xi2s j2s max_order false =
          .agg n ∧
      sizes.sum = n ∧
      (compute_meta_scattering xi1s sigma1s j1s xi2s sigma2s j2s
          max_order).1.length = n ∧
      (compute_meta_scattering xi1s sigma1s j1s xi2s sigma2s j2s
          max_order).2.length = n := by
  have hk1 : (zip3 xi1s sigma1s j1s).enum.length = xi1s.length := by
    simp [zip3_length _ _ _ hx1 hs1, hx1]
  have hk2 := size_order2_eq_metaKey2_length xi1s sigma1s j1s xi2s sigma2s
    j2s hx1 hs1 hx2 hs2
  rcases hmo with rfl | rfl
  · refine ⟨[1, xi1s.length], 1 + xi1s.length, rfl, rfl, by simp, ?_, ?_⟩
    · simp [compute_meta_scattering, hk1]
      omega
    · simp [compute_meta_scattering, hk1]
      omega
  · refine ⟨[1, xi1s.length, size_order2 xi1s j1s xi2s j2s],
      1 + xi1s.length + size_order2 xi1s j1s xi2s j2s, rfl, rfl,
      by simp [Nat.add_assoc], ?_, ?_⟩
    · simp [compute_meta_scattering, hk1, hk2]
      omega
    · simp [compute_meta_scattering, hk1, hk2]
      omega

/-- Witness for C4 at the concrete calibrated sequences of the C1
witness and `max_order = 2`. -/
theorem c4_size_consistency_witness :
    (([(1:ℚ)/2, 1/4, 1/8].length = [2, 1, 0].length ∧
      [(1:ℚ)/10, 1/10, 1/10].length = [2, 1, 0].length ∧
      [(1:ℚ)/2, 1/4, 1/8].length = [2, 1, 0].length ∧
      [(1:ℚ)/10, 1/10, 1/10].length = [2, 1, 0].length ∧
      ((2:ℕ) = 1 ∨ (2:ℕ) = 2))) ∧
    (∃ sizes n,
      precompute_size_scattering [(1:ℚ)/2, 1/4, 1/8] [2, 1, 0]
          [(1:ℚ)/2, 1/4, 1/8] [2, 1, 0] 2 true = .det sizes ∧
      precompute_size_scattering [(1:ℚ)/2, 1/4, 1/8] [2, 1, 0]
          [(1:ℚ)/2, 1/4, 1/8] [2, 1, 0] 2 false = .agg n ∧
      sizes.sum = n ∧
      (compute_meta_scattering [(1:ℚ)/2, 1/4, 1/8] [(1:ℚ)/10, 1/10, 1/10]
          [2, 1, 0] [(1:ℚ)/2, 1/4, 1/8] [(1:ℚ)/10, 1/10, 1/10] [2, 1, 0]
          2).1.length = n ∧
      (compute_meta_scattering [(1:ℚ)/2, 1/4, 1/8] [(1:ℚ)/10, 1/10, 1/10]
          [2, 1, 0] [(1:ℚ)/2, 1/4, 1/8] [(1:ℚ)/10, 1/10, 1/10] [2, 1, 0]
          2).2.length = n) :=
  ⟨⟨rfl, rfl, rfl, rfl, Or.inr rfl⟩,
    c4_size_consistency [(1:ℚ)/2, 1/4, 1/8] [(1:ℚ)/10, 1/10, 1/10]
      [2, 1, 0] [(1:ℚ)/2, 1/4, 1/8] [(1:ℚ)/10, 1/10, 1/10] [2, 1, 0] 2
      rfl rfl rfl rfl (Or.inr rfl)⟩

/-! ## numpy 2D backend (scattering2d/backend/numpy_backend.py)

`fft` (lines 101-131) wraps `np.fft.fft2` / `np.fft.ifft2`; the numpy
routines are the standard 2D discrete Fourier transform over the last
two axes (forward unnormalized, inverse divided by `M*N`), which is what
the embedding below defines over `ℂ`. -/

/-- A complex matrix indexed by the two spatial axes. -/
def Mat (M N : ℕ) : Type := Fin M → Fin N → ℂ

/-- The semantics of `np.fft.fft2`: the unnormalized forward 2D DFT. -/
noncomputable def dft2 {M N : ℕ} (a : Mat M N) : Mat M N :=
  fun k l => ∑ m : Fin M, ∑ n : Fin N,
    a m n * Complex.exp (-(2 * Real.pi * Complex.I) *
      ((k : ℂ) * m / M + (l : ℂ) * n / N))

/-- The semantics of `np.fft.ifft2` with `norm=None`: the inverse 2D DFT
normalized by `1 / (M * N)`. -/
noncomputable def idft2norm {M N : ℕ} (a : Mat M N) : Mat M N :=
  fun m n => (1 / ((M : ℂ) * N)) * ∑ k : Fin M, ∑ l : Fin N,
    a k l * Complex.exp ((2 * Real.pi * Complex.I) *
      ((m : ℂ) * k / M + (n : ℂ) * l / N))

/-- The mathematical unnormalized inverse 2D DFT (no `1 / (M * N)`
factor), used to state what the backend's inverse branches return. -/
noncomputable def idft2u {M N : ℕ} (a : Mat M N) : Mat M N :=
  fun m n => ∑ k : Fin M, ∑ l : Fin N,
    a k l * Complex.exp ((2 * Real.pi * Complex.I) *
      ((m : ℂ) * k / M + (n : ℂ) * l / N))

/-- A complex array of shape `(B, C, M, N)`. -/
def Arr (B C M N : ℕ) : Type := Fin B → Fin C → Fin M → Fin N → ℂ

/-- `np.fft.fft2` on a batched array: the 2D DFT over the last two axes. -/
noncomputable def fft2 {B C M N : ℕ} (x : Arr B C M N) : Arr B C M N :=
  fun b c => dft2 (x b c)

/-- `np.fft.ifft2` on a batched array. -/
noncomputable def ifft2 {B C M N : ℕ} (x : Arr B C M N) : Arr B C M N :=
  fun b c => idft2norm (x b c)

/-- The value returned by the backend `fft`: a complex array for `C2C`,
a real array for `C2R`. -/
inductive FftOut (B C M N : ℕ) where
  | complexArr (a : Arr B C M N)
  | realArr (a : Fin B → Fin C → Fin M → Fin N → ℝ)

namespace NumpyBackend

/-- Embeds the backend `fft` function (numpy_backend.py, lines 101-131):
`direction='C2R'` with `inverse=False` raises `RuntimeError`;
`'C2R'` (necessarily inverse) returns
`np.real(np.fft.ifft2(x)) * N * M`; `'C2C'` returns `np.fft.fft2(x)`
when `inverse=False` and `np.fft.ifft2(x) * N * M` when `inverse=True`;
any other direction leaves the local `output` unassigned, so the final
`return output` raises `UnboundLocalError`. -/
noncomputable def fft {B C M N : ℕ} (x : Arr B C M N)
    (direction : String) (inverse : Bool) :
    Except PyErr (FftOut B C M N) :=
  if direction = "C2R" ∧ inverse = false then
    .error (.runtimeError "C2R mode can only be done with an inverse FFT.")
  else if direction = "C2R" then
    .ok (.realArr fun b c m n => (ifft2 x b c m n).re * ((N : ℝ) * M))
  else if direction = "C2C" then
    if inverse then
      .ok (.complexArr fun b c m n => ifft2 x b c m n * ((N : ℂ) * M))
    else
      .ok (.complexArr (fft2 x))
  else .error (.unboundLocalError "output")

end NumpyBackend

/-- Orthogonality of the discrete characters: summing
`exp(2πi (m - p) k / M)` over `k < M` gives `M` when `m = p` and `0`
otherwise. -/
theorem sum_exp_rot (M : ℕ) (m p : Fin M) :
    ∑ k : Fin M, Complex.exp ((2 * Real.pi * Complex.I) *
        (((m : ℂ) - p) * k / M)) =
      if m = p then (M : ℂ) else 0 := by
  have hMpos : 0 < M := m.pos
  have hM : (M : ℂ) ≠ 0 := Nat.cast_ne_zero.mpr hMpos.ne'
  have hterm : ∀ k : Fin M,
      Complex.exp ((2 * Real.pi * Complex.I) * (((m : ℂ) - p) * k / M)) =
        Complex.exp ((2 * Real.pi * Complex.I) * (((m : ℂ) - p) / M)) ^
          (k : ℕ) := by
    intro k
    rw [← Complex.exp_nat_mul]
    congr 1
    ring
  simp_rw [hterm]
  by_cases hmp : m = p
  · subst hmp
    simp
  · have hζ : Complex.exp ((2 * Real.pi * Complex.I) *
        (((m : ℂ) - p) / M)) ≠ 1 := by
      intro hone
      rw [Complex.exp_eq_one_iff] at hone
      obtain ⟨z, hz⟩ := hone
      have h2pi : (2 * (Real.pi : ℂ) * Complex.I) ≠ 0 := by
        simp [Real.pi_ne_zero, Complex.I_ne_zero]
      have hzc : ((m : ℂ) - p) / M = z := by
        have hz' : (2 * (Real.pi : ℂ) * Complex.I) * (((m : ℂ) - p) / M) =
            (2 * (Real.pi : ℂ) * Complex.I) * z := by
          rw [hz]; ring
        exact mul_left_cancel₀ h2pi hz'
      have hmul : ((m : ℂ) - p) = z * M := (div_eq_iff hM).mp hzc
      have hcast : (((m : ℤ) - (p : ℤ) : ℤ) : ℂ) = (((z * M : ℤ)) : ℂ) := by
        push_cast
        push_cast at hmul
        linear_combination hmul
      have hint : ((m : ℤ) - (p : ℤ)) = z * M := Int.cast_injective hcast
      have hdvd : (M : ℤ) ∣ ((m : ℤ) - (p : ℤ)) := ⟨z, by linarith⟩
      have habs : |((m : ℤ) - (p : ℤ))| < M := by
        have h1 : ((m : ℕ) : ℤ) < M := Int.ofNat_lt.mpr m.isLt
        have h2 : ((p : ℕ) : ℤ) < M := Int.ofNat_lt.mpr p.isLt
        rw [abs_lt]
        omega
      have hzero := Int.eq_zero_of_abs_lt_dvd hdvd habs
      exact hmp (Fin.ext (by omega))
    rw [if_neg hmp, Fin.sum_univ_eq_sum_range
      (fun k => Complex.exp ((2 * Real.pi * Complex.I) *
        (((m : ℂ) - p) / M)) ^ k) M, geom_sum_eq hζ M]
    have hpow : Complex.exp ((2 * Real.pi * Complex.I) *
        (((m : ℂ) - p) / M)) ^ M = 1 := by
      rw [← Complex.exp_nat_mul]
      have harg : (M : ℂ) * ((2 * Real.pi * Complex.I) *
          (((m : ℂ) - p) / M)) =
          (((m : ℤ) - (p : ℤ) : ℤ) : ℂ) * (2 * Real.pi * Complex.I) := by
        push_cast
        field_simp
        ring
      rw [harg, Complex.exp_int_mul_two_pi_mul_I]
    rw [hpow]
    simp

/-- Combining the forward and inverse exponentials of matched indices. -/
theorem expSplit {M N : ℕ} (x : ℂ) (k m p : Fin M) (l n q : Fin N) :
    (x * Complex.exp (-(2 * Real.pi * Complex.I) *
        ((k : ℂ) * p / M + (l : ℂ) * q / N))) *
      Complex.exp ((2 * Real.pi * Complex.I) *
        ((m : ℂ) * k / M + (n : ℂ) * l / N)) =
    x * (Complex.exp ((2 * Real.pi * Complex.I) * (((m : ℂ) - p) * k / M)) *
      Complex.exp ((2 * Real.pi * Complex.I) * (((n : ℂ) - q) * l / N))) := by
  rw [mul_assoc, ← Complex.exp_add, ← Complex.exp_add]
  congr 2
  ring

/-- Reordering a fourfold sum. -/
theorem sum4_swap {α : Type} [AddCommMonoid α] {M N : ℕ}
    (f : Fin M → Fin N → Fin M → Fin N → α) :
    ∑ k : Fin M, ∑ l : Fin N, ∑ p : Fin M, ∑ q : Fin N, f k l p q =
      ∑ p : Fin M, ∑ q : Fin N, ∑ k : Fin M, ∑ l : Fin N, f k l p q := by
  calc ∑ k : Fin M, ∑ l : Fin N, ∑ p : Fin M, ∑ q : Fin N, f k l p q
      = ∑ k : Fin M, ∑ p : Fin M, ∑ l : Fin N, ∑ q : Fin N, f k l p q :=
        Finset.sum_congr rfl fun k _ => Finset.sum_comm
    _ = ∑ p : Fin M, ∑ k : Fin M, ∑ l : Fin N, ∑ q : Fin N, f k l p q :=
        Finset.sum_comm
    _ = ∑ p : Fin M, ∑ k : Fin M, ∑ q : Fin N, ∑ l : Fin N, f k l p q :=
        Finset.sum_congr rfl fun p _ =>
          Finset.sum_congr rfl fun k _ => Finset.sum_comm
    _ = ∑ p : Fin M, ∑ q : Fin N, ∑ k : Fin M, ∑ l : Fin N, f k l p q :=
        Finset.sum_congr rfl fun p _ => Finset.sum_comm

/-- 2D DFT inversion: the normalized inverse transform undoes the
forward transform. -/
theorem idft2norm_dft2 {M N : ℕ} (a : Mat M N) (m : Fin M) (n : Fin N) :
    idft2norm (dft2 a) m n = a m n := by
  have hM : ((M : ℂ)) ≠ 0 := Nat.cast_ne_zero.mpr m.pos.ne'
  have hN : ((N : ℂ)) ≠ 0 := Nat.cast_ne_zero.mpr n.pos.ne'
  have key : (∑ k : Fin M, ∑ l : Fin N, dft2 a k l *
      Complex.exp ((2 * Real.pi * Complex.I) *
        ((m : ℂ) * k / M + (n : ℂ) * l / N))) = (M : ℂ) * N * a m n := by
    unfold dft2
    simp_rw [Finset.sum_mul, expSplit]
    rw [sum4_swap]
    have factor : ∀ (p : Fin M) (q : Fin N),
        (∑ k : Fin M, ∑ l : Fin N, a p q *
          (Complex.exp ((2 * Real.pi * Complex.I) *
              (((m : ℂ) - p) * k / M)) *
           Complex.exp ((2 * Real.pi * Complex.I) *
              (((n : ℂ) - q) * l / N)))) =
        a p q *
          ((∑ k : Fin M, Complex.exp ((2 * Real.pi * Complex.I) *
              (((m : ℂ) - p) * k / M))) *
           (∑ l : Fin N, Complex.exp ((2 * Real.pi * Complex.I) *
              (((n : ℂ) - q) * l / N)))) := by
      intro p q
      simp_rw [Finset.sum_mul, Finset.mul_sum]
    simp_rw [factor, sum_exp_rot]
    rw [Finset.sum_eq_single m]
    · simp only [eq_self_iff_true, if_true]
      rw [Finset.sum_eq_single n]
      · simp only [eq_self_iff_true, if_true]
        ring
      · intro q _ hqn
        rw [if_neg fun h => hqn h.symm]
        ring
      · intro hn
        exact absurd (Finset.mem_univ n) hn
    · intro p _ hpm
      simp only [if_neg (fun h : m = p => hpm (Eq.symm h))]
      simp
    · intro hm
      exact absurd (Finset.mem_univ m) hm
  unfold idft2norm
  rw [key]
  field_simp

/-- The backend's unnormalized-inverse scaling: `ifft2 * (N * M)` is the
unnormalized inverse DFT. -/
theorem idft2norm_mul {M N : ℕ} (hM : 0 < M) (hN : 0 < N) (a : Mat M N)
    (m : Fin M) (n : Fin N) :
    idft2norm a m n * ((N : ℂ) * M) = idft2u a m n := by
  have hM' : (M : ℂ) ≠ 0 := Nat.cast_ne_zero.mpr hM.ne'
  have hN' : (N : ℂ) ≠ 0 := Nat.cast_ne_zero.mpr hN.ne'
  have hfac : (1 / ((M : ℂ) * N)) * ((N : ℂ) * M) = 1 := by
    field_simp
    ring
  unfold idft2norm idft2u
  rw [mul_comm (1 / ((M : ℂ) * N)), mul_assoc, hfac, mul_one]

/-- Real-part version of `idft2norm_mul`. -/
theorem idft2norm_re_mul {M N : ℕ} (hM : 0 < M) (hN : 0 < N) (a : Mat M N)
    (m : Fin M) (n : Fin N) :
    (idft2norm a m n).re * ((N : ℝ) * M) = (idft2u a m n).re := by
  have h := idft2norm_mul hM hN a m n
  have hcast : ((N : ℂ) * (M : ℂ)) = ((((N : ℝ) * M) : ℝ) : ℂ) := by
    push_cast
    ring
  have hre : (idft2norm a m n * ((N : ℂ) * M)).re =
      (idft2norm a m n).re * ((N : ℝ) * M) := by
    rw [hcast, mul_comm (idft2norm a m n), Complex.re_ofReal_mul]
    ring
  rw [← hre, h]

/-- C10. The backend `fft` raises `RuntimeError` (performing no
transform) iff called with `direction = 'C2R'` and `inverse = false`;
with `'C2R'` and `inverse = true` it returns the real part of the
unnormalized inverse transform; with `'C2C'` it returns the forward
transform when `inverse = false` and the unnormalized inverse transform
when `inverse = true`. -/
theorem c10_fft_branches (B C M N : ℕ) (hM : 0 < M) (hN : 0 < N)
    (x : Arr B C M N) :
    (∀ direction inverse,
      (∃ msg, NumpyBackend.fft x direction inverse =
          .error (.runtimeError msg)) ↔
        (direction = "C2R" ∧ inverse = false)) ∧
    NumpyBackend.fft x "C2R" true =
      .ok (.realArr fun b c m n => (idft2u (x b c) m n).re) ∧
    NumpyBackend.fft x "C2C" false = .ok (.complexArr (fft2 x)) ∧
    NumpyBackend.fft x "C2C" true =
      .ok (.complexArr fun b c m n => idft2u (x b c) m n) := by
  refine ⟨?_, ?_, ?_, ?_⟩
  · intro direction inverse
    by_cases hd : direction = "C2R"
    · subst hd
      cases inverse
      · simp [NumpyBackend.fft]
      · simp [NumpyBackend.fft]
    · by_cases hc : direction = "C2C"
      · subst hc
        cases inverse <;> simp [NumpyBackend.fft]
      · simp [NumpyBackend.fft, hd, hc]
  · rw [show NumpyBackend.fft x "C2R" true =
        .ok (.realArr fun b c m n => (ifft2 x b c m n).re * ((N : ℝ) * M))
      from by simp [NumpyBackend.fft]]
    exact congrArg (fun f => Except.ok (FftOut.realArr f))
      (funext fun b => funext fun c => funext fun m => funext fun n =>
        idft2norm_re_mul hM hN (x b c) m n)
  · simp [NumpyBackend.fft]
  · rw [show NumpyBackend.fft x "C2C" true =
        .ok (.complexArr fun b c m n => ifft2 x b c m n * ((N : ℂ) * M))
      from by simp [NumpyBackend.fft]]
    exact congrArg (fun f => Except.ok (FftOut.complexArr f))
      (funext fun b => funext fun c => funext fun m => funext fun n =>
        idft2norm_mul hM hN (x b c) m n)

/-- Witness for C10 at the concrete shape `(1, 1, 1, 1)` and the zero
array. -/
theorem c10_fft_branches_witness :
    0 < 1 ∧
    ((∀ direction inverse,
      (∃ msg, NumpyBackend.fft (fun _ _ _ _ => (0 : ℂ) :
            Arr 1 1 1 1) direction inverse =
          .error (.runtimeError msg)) ↔
        (direction = "C2R" ∧ inverse = false)) ∧
    NumpyBackend.fft (fun _ _ _ _ => (0 : ℂ) : Arr 1 1 1 1) "C2R" true =
      .ok (.realArr fun b c m n =>
        (idft2u ((fun _ _ _ _ => (0 : ℂ) : Arr 1 1 1 1) b c) m n).re) ∧
    NumpyBackend.fft (fun _ _ _ _ => (0 : ℂ) : Arr 1 1 1 1) "C2C" false =
      .ok (.complexArr (fft2 (fun _ _ _ _ => (0 : ℂ)))) ∧
    NumpyBackend.fft (fun _ _ _ _ => (0 : ℂ) : Arr 1 1 1 1) "C2C" true =
      .ok (.complexArr fun b c m n =>
        idft2u ((fun _ _ _ _ => (0 : ℂ) : Arr 1 1 1 1) b c) m n)) :=
  ⟨Nat.one_pos,
    c10_fft_branches 1 1 1 1 Nat.one_pos Nat.one_pos (fun _ _ _ _ => 0)⟩

/-- C5, amended. Applying the backend's forward FFT (`'C2C'`,
`inverse = false`) and then its inverse FFT (`'C2C'`, `inverse = true`)
reproduces the original array scaled by `M * N` (the number of spatial
samples), because the backend's inverse branch multiplies the normalized
`np.fft.ifft2` by `N * M`; the original array itself is reproduced only
when `M * N = 1`. -/
theorem c5_amended_roundtrip {B C M N : ℕ} (x : Arr B C M N) :
    NumpyBackend.fft x "C2C" false = .ok (.complexArr (fft2 x)) ∧
    NumpyBackend.fft (fft2 x) "C2C" true =
      .ok (.complexArr fun b c m n => ((M : ℂ) * N) * x b c m n) := by
  constructor
  · simp [NumpyBackend.fft]
  · rw [show NumpyBackend.fft (fft2 x) "C2C" true =
        .ok (.complexArr fun b c m n =>
          ifft2 (fft2 x) b c m n * ((N : ℂ) * M))
      from by simp [NumpyBackend.fft]]
    refine congrArg (fun f => Except.ok (FftOut.complexArr f)) ?_
    funext b c m n
    rw [show ifft2 (fft2 x) b c m n = x b c m n from
      idft2norm_dft2 (x b c) m n]
    ring

/-- Impulse input for the C5 counterexample: shape `(1, 1, 1, 2)`. -/
def c5x : Arr 1 1 1 2 := fun _ _ _ n => if n = 0 then 1 else 0

/-- What the round trip actually returns on `c5x`: twice the impulse. -/
def c5y : Arr 1 1 1 2 := fun _ _ _ n => if n = 0 then 2 else 0

/-- C5, counterexample. On the concrete `1 × 1 × 1 × 2` impulse
array, forward FFT followed by the backend's inverse FFT returns twice
the original array, not the original array. -/
theorem c5_counterexample :
    NumpyBackend.fft c5x "C2C" false = .ok (.complexArr (fft2 c5x)) ∧
    NumpyBackend.fft (fft2 c5x) "C2C" true = .ok (.complexArr c5y) ∧
    c5y ≠ c5x := by
  refine ⟨by simp [NumpyBackend.fft], ?_, ?_⟩
  · rw [show NumpyBackend.fft (fft2 c5x) "C2C" true =
        .ok (.complexArr fun b c m n =>
          ifft2 (fft2 c5x) b c m n * (((2 : ℕ) : ℂ) * ((1 : ℕ) : ℂ)))
      from by simp [NumpyBackend.fft]]
    refine congrArg (fun f => Except.ok (FftOut.complexArr f)) ?_
    funext b c m n
    rw [show ifft2 (fft2 c5x) b c m n = c5x b c m n from
      idft2norm_dft2 (c5x b c) m n]
    fin_cases n
    · norm_num [c5x, c5y]
    · norm_num [c5x, c5y]
  · intro h
    have h0 := congrFun (congrFun (congrFun (congrFun h 0) 0) 0) 0
    norm_num [c5x, c5y] at h0

/-! ## `SubsampleFourier` (numpy_backend.py, lines 48-76)

`__call__` reshapes a row-major array of shape `(B, C, M, N)` to
`(B, C, M//(M//k), M//k, N//(N//k), N//k)` and takes the mean over axes
2 and 4.  The embedding works on the flat (row-major) data `v`, with the
reshape expressed by the flat-index arithmetic of C-contiguous
arrays. -/

/-- Row-major flat index of entry `(b, c, m, n)` in an array of shape
`(B, C, M, N)`. -/
def flatIdx4 (C M N b c m n : ℕ) : ℕ := ((b * C + c) * M + m) * N + n

/-- Row-major flat index of entry `(b, c, p, i, q, j)` in an array of
shape `(B, C, d2, d3, d4, d5)`. -/
def flatIdx6 (C d2 d3 d4 d5 b c p i q j : ℕ) : ℕ :=
  ((((b * C + c) * d2 + p) * d3 + i) * d4 + q) * d5 + j

/-- Embeds `SubsampleFourier.__call__` on flat data `v` of an array of
shape `(B, C, M, N)`: entry `(b, c, i, j)` of
`x.reshape((B, C, M//(M//k), M//k, N//(N//k), N//k)).mean(axis=(2, 4))`. -/
noncomputable def subsample_fourier (C M N k : ℕ) (v : ℕ → ℂ)
    (b c i j : ℕ) : ℂ :=
  (∑ p ∈ Finset.range (M / (M / k)), ∑ q ∈ Finset.range (N / (N / k)),
    v (flatIdx6 C (M / (M / k)) (M / k) (N / (N / k)) (N / k) b c p i q j)) /
    (((M / (M / k) : ℕ) : ℂ) * ((N / (N / k) : ℕ) : ℂ))

/-- Entry formula for `SubsampleFourier`: each output entry is the mean
of the `k * k` input aliases. -/
theorem subsample_fourier_entry (Cc M N k : ℕ) (v : ℕ → ℂ)
    (hk : 0 < k) (hM : k ∣ M) (hN : k ∣ N) (hM0 : 0 < M) (hN0 : 0 < N)
    (b c i j : ℕ) :
    subsample_fourier Cc M N k v b c i j =
      (∑ p ∈ Finset.range k, ∑ q ∈ Finset.range k,
        v (flatIdx4 Cc M N b c (i + p * (M / k)) (j + q * (N / k)))) /
        ((k : ℂ) * k) := by
  have hMk : M / (M / k) = k := Nat.div_div_self hM hM0.ne'
  have hNk : N / (N / k) = k := Nat.div_div_self hN hN0.ne'
  unfold subsample_fourier
  rw [hMk, hNk]
  congr 1
  apply Finset.sum_congr rfl
  intro p hp
  apply Finset.sum_congr rfl
  intro q hq
  congr 1
  unfold flatIdx6 flatIdx4
  obtain ⟨u, rfl⟩ := hM
  obtain ⟨w, rfl⟩ := hN
  rw [Nat.mul_div_cancel_left u hk, Nat.mul_div_cancel_left w hk]
  ring

/-- Reindexing a `b × a` grid sum as a sum over `Fin (b * a)` via
`m = p * a + i`. -/
theorem sum_grid_eq (a b : ℕ) (F : ℕ → ℂ) :
    ∑ i : Fin a, ∑ p ∈ Finset.range b, F (p * a + i) =
      ∑ m : Fin (b * a), F m := by
  rw [Fin.sum_univ_eq_sum_range
      (fun i => ∑ p ∈ Finset.range b, F (p * a + i)) a,
    Fin.sum_univ_eq_sum_range (fun m => F m) (b * a),
    ← Finset.sum_product']
  apply Finset.sum_nbij' (fun z => z.2 * a + z.1) (fun m => (m % a, m / a))
  · rintro ⟨i, p⟩ hz
    rw [Finset.mem_product, Finset.mem_range, Finset.mem_range] at hz
    rw [Finset.mem_range]
    calc p * a + i < p * a + a := by omega
      _ = (p + 1) * a := by ring
      _ ≤ b * a := Nat.mul_le_mul_right a hz.2
  · intro m hm
    rw [Finset.mem_range] at hm
    have ha : 0 < a := by
      rcases Nat.eq_zero_or_pos a with h | h
      · subst h
        simp at hm
      · exact h
    rw [Finset.mem_product, Finset.mem_range, Finset.mem_range]
    exact ⟨Nat.mod_lt m ha,
      Nat.div_lt_of_lt_mul (by rwa [mul_comm b a] at hm)⟩
  · rintro ⟨i, p⟩ hz
    rw [Finset.mem_product, Finset.mem_range, Finset.mem_range] at hz
    have h1 : (p * a + i) % a = i := by
      rw [mul_comm p a, Nat.mul_add_mod, Nat.mod_eq_of_lt hz.1]
    have h2 : (p * a + i) / a = p := by
      have ha : 0 < a := by omega
      rw [mul_comm p a, Nat.mul_add_div ha, Nat.div_eq_of_lt hz.1]
      omega
    rw [h1, h2]
  · intro m hm
    rw [mul_comm (m / a) a]
    exact Nat.div_add_mod m a
  · rintro ⟨i, p⟩ hz
    rfl

/-- One-axis aliasing identity: summing the `k`-fold alias sums against
the coarse-grid character of frequency `u` equals summing the original
samples against the fine-grid character of frequency `w = k * u`. -/
theorem alias_reindex (M k : ℕ) (hk : 0 < k) (hM : k ∣ M) (hM0 : 0 < M)
    (g : ℕ → ℂ) (u : Fin (M / k)) (w : Fin M) (hw : (w : ℕ) = k * u) :
    ∑ i : Fin (M / k), ∑ p ∈ Finset.range k,
        g (p * (M / k) + i) *
          Complex.exp ((2 * Real.pi * Complex.I) *
            ((u : ℂ) * i / ((M / k : ℕ) : ℂ))) =
      ∑ m : Fin M, g m *
        Complex.exp ((2 * Real.pi * Complex.I) * ((w : ℂ) * m / M)) := by
  have ha : 0 < M / k := Nat.div_pos (Nat.le_of_dvd hM0 hM) hk
  have hMk : k * (M / k) = M := Nat.mul_div_cancel' hM
  have hkc : (k : ℂ) ≠ 0 := Nat.cast_ne_zero.mpr hk.ne'
  have hac : ((M / k : ℕ) : ℂ) ≠ 0 := Nat.cast_ne_zero.mpr ha.ne'
  have hexp : ∀ (i : Fin (M / k)) (p : ℕ), p < k →
      Complex.exp ((2 * Real.pi * Complex.I) *
          ((w : ℂ) * ((p * (M / k) + (i : ℕ) : ℕ) : ℂ) / M)) =
        Complex.exp ((2 * Real.pi * Complex.I) *
          ((u : ℂ) * i / ((M / k : ℕ) : ℂ))) := by
    intro i p hp
    have hMc : (M : ℂ) = (k : ℂ) * ((M / k : ℕ) : ℂ) := by
      exact_mod_cast hMk.symm
    have hX : ((p * (M / k) + (i : ℕ) : ℕ) : ℂ) =
        (p : ℂ) * ((M / k : ℕ) : ℂ) + ((i : ℕ) : ℂ) := by
      rw [Nat.cast_add, Nat.cast_mul]
    have hwc : ((w : ℕ) : ℂ) = (k : ℂ) * ((u : ℕ) : ℂ) := by
      exact_mod_cast hw
    have harg : (2 * Real.pi * Complex.I) *
        ((w : ℂ) * ((p * (M / k) + (i : ℕ) : ℕ) : ℂ) / M) =
        (((u : ℕ) : ℂ) * (p : ℂ)) * (2 * Real.pi * Complex.I) +
          (2 * Real.pi * Complex.I) *
            ((u : ℂ) * i / ((M / k : ℕ) : ℂ)) := by
      have hMcne : (M : ℂ) ≠ 0 := Nat.cast_ne_zero.mpr hM0.ne'
      rw [hX, hwc, hMc]
      field_simp
      ring
    rw [harg, Complex.exp_add,
      show Complex.exp ((((u : ℕ) : ℂ) * (p : ℂ)) *
          (2 * Real.pi * Complex.I)) = 1 from by
        have h := Complex.exp_int_mul_two_pi_mul_I (((u : ℕ) * p : ℕ) : ℤ)
        push_cast at h
        exact h,
      one_mul]
  calc ∑ i : Fin (M / k), ∑ p ∈ Finset.range k,
        g (p * (M / k) + i) *
          Complex.exp ((2 * Real.pi * Complex.I) *
            ((u : ℂ) * i / ((M / k : ℕ) : ℂ)))
      = ∑ i : Fin (M / k), ∑ p ∈ Finset.range k,
          g (p * (M / k) + i) *
            Complex.exp ((2 * Real.pi * Complex.I) *
              ((w : ℂ) * ((p * (M / k) + (i : ℕ) : ℕ) : ℂ) / M)) := by
        apply Finset.sum_congr rfl
        intro i _
        apply Finset.sum_congr rfl
        intro p hp
        rw [hexp i p (Finset.mem_range.mp hp)]
    _ = ∑ m : Fin (k * (M / k)),
          g m * Complex.exp ((2 * Real.pi * Complex.I) *
            ((w : ℂ) * (m : ℂ) / M)) :=
        sum_grid_eq (M / k) k
          (fun m => g m * Complex.exp ((2 * Real.pi * Complex.I) *
            ((w : ℂ) * (m : ℂ) / M)))
    _ = ∑ m : Fin M, g m *
          Complex.exp ((2 * Real.pi * Complex.I) * ((w : ℂ) * m / M)) := by
        rw [Fin.sum_univ_eq_sum_range
            (fun m => g m * Complex.exp ((2 * Real.pi * Complex.I) *
              ((w : ℂ) * (m : ℂ) / M))) (k * (M / k)),
          Fin.sum_univ_eq_sum_range
            (fun m => g m * Complex.exp ((2 * Real.pi * Complex.I) *
              ((w : ℂ) * (m : ℂ) / M))) M,
          hMk]

/-- Proof scaffolding: the second-axis alias sum of row `m` weighted by
the coarse character of frequency `u2`. -/
noncomputable def aliasRow (Cc M N k : ℕ) (v : ℕ → ℂ) (b c : ℕ)
    (u2 : Fin (N / k)) (m : ℕ) : ℂ :=
  ∑ j : Fin (N / k), ∑ q ∈ Finset.range k,
    v (flatIdx4 Cc M N b c m (q * (N / k) + j)) *
      Complex.exp ((2 * Real.pi * Complex.I) *
        ((u2 : ℂ) * j / ((N / k : ℕ) : ℂ)))

/-- Sum form of the decimation property: pairing the subsampled array
against the coarse 2D characters equals `1 / k²` times pairing the
original array against the decimated fine characters. -/
theorem subsample_decimation_sum (Cc M N k : ℕ) (v : ℕ → ℂ)
    (hk : 0 < k) (hM : k ∣ M) (hN : k ∣ N) (hM0 : 0 < M) (hN0 : 0 < N)
    (b c : ℕ) (u1 : Fin (M / k)) (u2 : Fin (N / k))
    (w1 : Fin M) (w2 : Fin N)
    (hw1 : (w1 : ℕ) = k * u1) (hw2 : (w2 : ℕ) = k * u2) :
    (∑ i : Fin (M / k), ∑ j : Fin (N / k),
      subsample_fourier Cc M N k v b c i j *
        Complex.exp ((2 * Real.pi * Complex.I) *
          ((u1 : ℂ) * i / ((M / k : ℕ) : ℂ) +
           (u2 : ℂ) * j / ((N / k : ℕ) : ℂ)))) =
    (∑ m : Fin M, ∑ n : Fin N,
      v (flatIdx4 Cc M N b c m n) *
        Complex.exp ((2 * Real.pi * Complex.I) *
          ((w1 : ℂ) * m / M + (w2 : ℂ) * n / N))) / ((k : ℂ) * k) := by
  have step1 : (∑ i : Fin (M / k), ∑ j : Fin (N / k),
      subsample_fourier Cc M N k v b c i j *
        Complex.exp ((2 * Real.pi * Complex.I) *
          ((u1 : ℂ) * i / ((M / k : ℕ) : ℂ) +
           (u2 : ℂ) * j / ((N / k : ℕ) : ℂ)))) =
      ∑ i : Fin (M / k), ∑ j : Fin (N / k),
        ((∑ p ∈ Finset.range k, ∑ q ∈ Finset.range k,
          v (flatIdx4 Cc M N b c (p * (M / k) + i) (q * (N / k) + j)) *
            Complex.exp ((2 * Real.pi * Complex.I) *
              ((u2 : ℂ) * j / ((N / k : ℕ) : ℂ)))) *
          Complex.exp ((2 * Real.pi * Complex.I) *
            ((u1 : ℂ) * i / ((M / k : ℕ) : ℂ)))) / ((k : ℂ) * k) := by
    apply Finset.sum_congr rfl
    intro i _
    apply Finset.sum_congr rfl
    intro j _
    rw [subsample_fourier_entry Cc M N k v hk hM hN hM0 hN0 b c i j,
      show (∑ p ∈ Finset.range k, ∑ q ∈ Finset.range k,
        v (flatIdx4 Cc M N b c ((i : ℕ) + p * (M / k))
          ((j : ℕ) + q * (N / k)))) =
        ∑ p ∈ Finset.range k, ∑ q ∈ Finset.range k,
          v (flatIdx4 Cc M N b c (p * (M / k) + i) (q * (N / k) + j)) from
        Finset.sum_congr rfl fun p _ => Finset.sum_congr rfl fun q _ => by
          rw [Nat.add_comm (i : ℕ), Nat.add_comm (j : ℕ)],
      show (2 * Real.pi * Complex.I) *
          ((u1 : ℂ) * i / ((M / k : ℕ) : ℂ) +
           (u2 : ℂ) * j / ((N / k : ℕ) : ℂ)) =
          (2 * Real.pi * Complex.I) * ((u2 : ℂ) * j / ((N / k : ℕ) : ℂ)) +
          (2 * Real.pi * Complex.I) * ((u1 : ℂ) * i / ((M / k : ℕ) : ℂ))
        from by ring,
      Complex.exp_add, div_mul_eq_mul_div]
    congr 1
    rw [← mul_assoc]
    congr 1
    rw [Finset.sum_mul]
    exact Finset.sum_congr rfl fun p _ => Finset.sum_mul _ _ _
  rw [step1,
    show (∑ i : Fin (M / k), ∑ j : Fin (N / k),
      ((∑ p ∈ Finset.range k, ∑ q ∈ Finset.range k,
        v (flatIdx4 Cc M N b c (p * (M / k) + i) (q * (N / k) + j)) *
          Complex.exp ((2 * Real.pi * Complex.I) *
            ((u2 : ℂ) * j / ((N / k : ℕ) : ℂ)))) *
        Complex.exp ((2 * Real.pi * Complex.I) *
          ((u1 : ℂ) * i / ((M / k : ℕ) : ℂ)))) / ((k : ℂ) * k)) =
      (∑ i : Fin (M / k), ∑ j : Fin (N / k),
      ((∑ p ∈ Finset.range k, ∑ q ∈ Finset.range k,
        v (flatIdx4 Cc M N b c (p * (M / k) + i) (q * (N / k) + j)) *
          Complex.exp ((2 * Real.pi * Complex.I) *
            ((u2 : ℂ) * j / ((N / k : ℕ) : ℂ)))) *
        Complex.exp ((2 * Real.pi * Complex.I) *
          ((u1 : ℂ) * i / ((M / k : ℕ) : ℂ))))) / ((k : ℂ) * k) from by
      rw [Finset.sum_div]
      exact Finset.sum_congr rfl fun i _ => (Finset.sum_div _ _ _).symm]
  congr 1
  calc ∑ i : Fin (M / k), ∑ j : Fin (N / k),
        ((∑ p ∈ Finset.range k, ∑ q ∈ Finset.range k,
          v (flatIdx4 Cc M N b c (p * (M / k) + i) (q * (N / k) + j)) *
            Complex.exp ((2 * Real.pi * Complex.I) *
              ((u2 : ℂ) * j / ((N / k : ℕ) : ℂ)))) *
          Complex.exp ((2 * Real.pi * Complex.I) *
            ((u1 : ℂ) * i / ((M / k : ℕ) : ℂ))))
      = ∑ i : Fin (M / k), ∑ p ∈ Finset.range k,
          aliasRow Cc M N k v b c u2 (p * (M / k) + i) *
            Complex.exp ((2 * Real.pi * Complex.I) *
              ((u1 : ℂ) * i / ((M / k : ℕ) : ℂ))) := by
        apply Finset.sum_congr rfl
        intro i _
        calc ∑ j : Fin (N / k),
              ((∑ p ∈ Finset.range k, ∑ q ∈ Finset.range k,
                v (flatIdx4 Cc M N b c (p * (M / k) + i)
                  (q * (N / k) + j)) *
                  Complex.exp ((2 * Real.pi * Complex.I) *
                    ((u2 : ℂ) * j / ((N / k : ℕ) : ℂ)))) *
                Complex.exp ((2 * Real.pi * Complex.I) *
                  ((u1 : ℂ) * i / ((M / k : ℕ) : ℂ))))
            = ∑ j : Fin (N / k), ∑ p ∈ Finset.range k,
                ((∑ q ∈ Finset.range k,
                  v (flatIdx4 Cc M N b c (p * (M / k) + i)
                    (q * (N / k) + j)) *
                    Complex.exp ((2 * Real.pi * Complex.I) *
                      ((u2 : ℂ) * j / ((N / k : ℕ) : ℂ)))) *
                  Complex.exp ((2 * Real.pi * Complex.I) *
                    ((u1 : ℂ) * i / ((M / k : ℕ) : ℂ)))) :=
              Finset.sum_congr rfl fun j _ => Finset.sum_mul _ _ _
          _ = ∑ p ∈ Finset.range k, ∑ j : Fin (N / k),
                ((∑ q ∈ Finset.range k,
                  v (flatIdx4 Cc M N b c (p * (M / k) + i)
                    (q * (N / k) + j)) *
                    Complex.exp ((2 * Real.pi * Complex.I) *
                      ((u2 : ℂ) * j / ((N / k : ℕ) : ℂ)))) *
                  Complex.exp ((2 * Real.pi * Complex.I) *
                    ((u1 : ℂ) * i / ((M / k : ℕ) : ℂ)))) :=
              Finset.sum_comm
          _ = ∑ p ∈ Finset.range k,
                aliasRow Cc M N k v b c u2 (p * (M / k) + i) *
                  Complex.exp ((2 * Real.pi * Complex.I) *
                    ((u1 : ℂ) * i / ((M / k : ℕ) : ℂ))) :=
              Finset.sum_congr rfl fun p _ => (Finset.sum_mul _ _ _).symm
    _ = ∑ m : Fin M,
          aliasRow Cc M N k v b c u2 m *
            Complex.exp ((2 * Real.pi * Complex.I) *
              ((w1 : ℂ) * m / M)) :=
        alias_reindex M k hk hM hM0 (aliasRow Cc M N k v b c u2) u1 w1 hw1
    _ = ∑ m : Fin M,
          (∑ n : Fin N, v (flatIdx4 Cc M N b c m n) *
            Complex.exp ((2 * Real.pi * Complex.I) *
              ((w2 : ℂ) * n / N))) *
            Complex.exp ((2 * Real.pi * Complex.I) *
              ((w1 : ℂ) * m / M)) := by
        apply Finset.sum_congr rfl
        intro m _
        congr 1
        exact alias_reindex N k hk hN hN0
          (fun n => v (flatIdx4 Cc M N b c m n)) u2 w2 hw2
    _ = ∑ m : Fin M, ∑ n : Fin N,
          v (flatIdx4 Cc M N b c m n) *
            Complex.exp ((2 * Real.pi * Complex.I) *
              ((w1 : ℂ) * m / M + (w2 : ℂ) * n / N)) := by
        apply Finset.sum_congr rfl
        intro m _
        rw [Finset.sum_mul]
        apply Finset.sum_congr rfl
        intro n _
        rw [mul_assoc]
        congr 1
        rw [← Complex.exp_add]
        congr 1
        ring

/-- Decimation: the normalized inverse 2D DFT of the subsampled
spectrum at `(u1, u2)` equals the normalized inverse 2D DFT of the
original spectrum at `(k*u1, k*u2)`. -/
theorem subsample_fourier_decimation (Cc M N k : ℕ) (v : ℕ → ℂ)
    (hk : 0 < k) (hM : k ∣ M) (hN : k ∣ N) (hM0 : 0 < M) (hN0 : 0 < N)
    (b c : ℕ) (u1 : Fin (M / k)) (u2 : Fin (N / k))
    (w1 : Fin M) (w2 : Fin N)
    (hw1 : (w1 : ℕ) = k * u1) (hw2 : (w2 : ℕ) = k * u2) :
    idft2norm (fun i j => subsample_fourier Cc M N k v b c i j) u1 u2 =
      idft2norm (fun p q => v (flatIdx4 Cc M N b c p q)) w1 w2 := by
  unfold idft2norm
  rw [subsample_decimation_sum Cc M N k v hk hM hN hM0 hN0 b c u1 u2 w1 w2
    hw1 hw2]
  have hMk : k * (M / k) = M := Nat.mul_div_cancel' hM
  have hNk : k * (N / k) = N := Nat.mul_div_cancel' hN
  have hMc : (M : ℂ) = (k : ℂ) * ((M / k : ℕ) : ℂ) := by
    exact_mod_cast hMk.symm
  have hNc : (N : ℂ) = (k : ℂ) * ((N / k : ℕ) : ℂ) := by
    exact_mod_cast hNk.symm
  rw [hMc, hNc]
  ring

/-- C8. For every flat array of shape `(B, C, M, N)` and every
positive factor `k` dividing both `M` and `N`, `SubsampleFourier`
returns the `(B, C, M/k, N/k)` array whose entry at `(b, c, i, j)` is
the mean of the `k*k` aliases `x[b, c, i + p*(M/k), j + q*(N/k)]` for
`0 ≤ p, q < k` (Fourier-domain periodization-and-average), and whose
inverse transform is the spatial signal decimated by factor `k`: the
normalized inverse DFT of the output at `(u1, u2)` equals the
normalized inverse DFT of the input at `(k*u1, k*u2)`. -/
theorem c8_subsample_fourier (Cc M N k : ℕ) (v : ℕ → ℂ)
    (hk : 0 < k) (hM : k ∣ M) (hN : k ∣ N) (hM0 : 0 < M) (hN0 : 0 < N) :
    (∀ b c i j : ℕ,
      subsample_fourier Cc M N k v b c i j =
        (∑ p ∈ Finset.range k, ∑ q ∈ Finset.range k,
          v (flatIdx4 Cc M N b c (i + p * (M / k)) (j + q * (N / k)))) /
          ((k : ℂ) * k)) ∧
    (∀ (b c : ℕ) (u1 : Fin (M / k)) (u2 : Fin (N / k))
        (w1 : Fin M) (w2 : Fin N),
      (w1 : ℕ) = k * u1 → (w2 : ℕ) = k * u2 →
      idft2norm (fun i j => subsample_fourier Cc M N k v b c i j) u1 u2 =
        idft2norm (fun p q => v (flatIdx4 Cc M N b c p q)) w1 w2) :=
  ⟨fun b c i j =>
      subsample_fourier_entry Cc M N k v hk hM hN hM0 hN0 b c i j,
    fun b c u1 u2 w1 w2 hw1 hw2 =>
      subsample_fourier_decimation Cc M N k v hk hM hN hM0 hN0 b c u1 u2
        w1 w2 hw1 hw2⟩

/-- Witness for C8 at shape `(B, C, M, N) = (1, 1, 2, 2)`, factor
`k = 2`, on the flat array `v idx = idx`. -/
theorem c8_subsample_fourier_witness :
    ((0 : ℕ) < 2 ∧ (2 : ℕ) ∣ 2 ∧ (2 : ℕ) ∣ 2 ∧ (0 : ℕ) < 2 ∧
      (0 : ℕ) < 2) ∧
    ((∀ b c i j : ℕ,
      subsample_fourier 1 2 2 2 (fun idx => (idx : ℂ)) b c i j =
        (∑ p ∈ Finset.range 2, ∑ q ∈ Finset.range 2,
          ((flatIdx4 1 2 2 b c (i + p * (2 / 2)) (j + q * (2 / 2)) : ℕ) :
            ℂ)) / ((2 : ℂ) * 2)) ∧
    (∀ (b c : ℕ) (u1 : Fin (2 / 2)) (u2 : Fin (2 / 2))
        (w1 : Fin 2) (w2 : Fin 2),
      (w1 : ℕ) = 2 * u1 → (w2 : ℕ) = 2 * u2 →
      idft2norm (fun i j =>
          subsample_fourier 1 2 2 2 (fun idx => (idx : ℂ)) b c i j) u1 u2 =
        idft2norm (fun p q =>
          ((flatIdx4 1 2 2 b c p q : ℕ) : ℂ)) w1 w2)) :=
  ⟨⟨by norm_num, by norm_num, by norm_num, by norm_num, by norm_num⟩,
    c8_subsample_fourier 1 2 2 2 (fun idx => (idx : ℂ)) (by norm_num)
      (by norm_num) (by norm_num) (by norm_num) (by norm_num)⟩
